import Mathlib

set_option linter.unusedSectionVars false

/-
Shallow embedding of the MCTest baseline: the sliding-window embedding
scorer and the prediction/evaluation logic of `baseline-embed.py`, and the
length-prefixed record stream codec of `parse.py`.

Modelling conventions:
* numpy float vectors become lists over an abstract linear ordered field
  `R` (instantiated with `ℚ` for concrete evaluations); `np.sqrt` becomes
  an abstract function parameter `sqrt : R → R`, since none of the
  verified properties depend on the numeric value of a square root;
* `-np.inf` becomes `(⊥ : WithBot R)`;
* an IEEE NaN produced by a degenerate window (empty mean, or a zero
  divisor in `l2_normalize`) never satisfies `score > max_score`, so a
  degenerate window leaves the running maximum unchanged; this is modelled
  by giving each window an `Option R` score where `none` (NaN) never
  updates the maximum;
* byte streams become `List Nat` (each byte < 256 in genuine streams).
-/

namespace MCTest

/-! Part 1: the sliding-window scorer (`baseline-embed.py`, lines 30-64). -/

variable {R : Type} [LinearOrderedField R]

/-- np.dot on two equal-length float vectors: sum of pointwise products. -/
def dot (u v : List R) : R := (List.zipWith (fun a b => a * b) u v).sum

/-- Pointwise vector sum (numpy broadcasting on equal shapes). -/
def vecAdd (u v : List R) : List R := List.zipWith (fun a b => a + b) u v

/-- Pointwise vector difference. -/
def vecSub (u v : List R) : List R := List.zipWith (fun a b => a - b) u v

/-- Scalar multiple of a vector. -/
def scale (c : R) (v : List R) : List R := v.map (fun a => c * a)

/-- np.mean(vs, 0): the element-wise mean of a list of vectors.
    numpy returns NaN for an empty list; the empty case here returns `[]`
    and is guarded separately (see `normMean`). -/
def vecMean : List (List R) → List R
  | [] => []
  | v :: vs => scale (1 / ((v :: vs).length : R)) (vs.foldl vecAdd v)

/-- Source line 30: `l2_normalize(v) = v / np.sqrt(np.dot(v, v))`. -/
def l2_normalize (sqrt : R → R) (v : List R) : List R :=
  v.map (fun a => a / sqrt (dot v v))

/-- The L2-normalized mean of a list of vectors, `none` when the float
    computation would produce NaN entries: the list is empty (mean of
    nothing) or the normalizing divisor is zero. -/
def normMean (sqrt : R → R) (vs : List (List R)) : Option (List R) :=
  if vs = [] then none
  else if sqrt (dot (vecMean vs) (vecMean vs)) = 0 then none
  else some (l2_normalize sqrt (vecMean vs))

/-- Source line 40: `window_size = self._window_size or target_size`.
    Python `or` falls back when the configured value is `None` or `0`. -/
def effectiveWindow (cfg : Option Nat) (t : Nat) : Nat :=
  match cfg with
  | none => t
  | some 0 => t
  | some w => w

/-- Source line 44: the window start indices `xrange(len(passage) - window_size)`. -/
def windowStarts (cfg : Option Nat) (passage target : List (List R)) : List Nat :=
  List.range (passage.length - effectiveWindow cfg target.length)

/-- Source lines 46-48: the score of the window of size `w` starting at `i`,
    `-np.dot(mean_passage - mean_target, mean_passage - mean_target)` with both
    means L2-normalized; `none` models a NaN score (degenerate window or
    degenerate target), which never updates the running maximum. -/
def windowScore (sqrt : R → R) (passage target : List (List R)) (w i : Nat) :
    Option R :=
  match normMean sqrt ((passage.drop i).take w), normMean sqrt target with
  | some mp, some mt => some (-(dot (vecSub mp mt) (vecSub mp mt)))
  | _, _ => none

/-- Source lines 38-57: `SlidingWindowEmbeddings.score_target`.  Starts
    from `max_score = -np.inf` (here `⊥`) and keeps the maximum window
    score; a NaN (`none`) window score fails `score > max_score` and is
    skipped, exactly as IEEE comparison does in the float code. -/
def score_target (sqrt : R → R) (cfg : Option Nat)
    (passage target : List (List R)) : WithBot R :=
  (windowStarts cfg passage target).foldl
    (fun max_score i =>
      match windowScore sqrt passage target (effectiveWindow cfg target.length) i with
      | some score => if (score : WithBot R) > max_score then (score : WithBot R) else max_score
      | none => max_score)
    ⊥

/-- Square-root instantiation used at concrete witness inputs.  Every
    theorem below holds for an arbitrary `sqrt` function; the witness
    vectors are chosen so that every squared norm the scorer meets is `0`
    or `1`, where the identity function agrees with the real square root. -/
def sqrtId : ℚ → ℚ := fun q => q

/-- A fold step that never fires leaves the accumulator unchanged. -/
lemma foldl_const_of_none {σ : Type} (f : σ → Nat → σ) (l : List Nat)
    (h : ∀ acc i, i ∈ l → f acc i = acc) : ∀ acc, l.foldl f acc = acc := by
  induction l with
  | nil => intro acc; rfl
  | cons a l ih =>
    intro acc
    rw [List.foldl_cons, h acc a (List.mem_cons_self a l)]
    exact ih (fun acc i hi => h acc i (List.mem_cons_of_mem a hi)) acc

/-- When the target is empty its mean is NaN, every window score is NaN,
    and the fold never leaves `⊥`. -/
lemma score_target_of_target_nil (sqrt : ℚ → ℚ) (cfg : Option Nat)
    (passage : List (List ℚ)) :
    score_target sqrt cfg passage [] = ⊥ := by
  unfold score_target
  refine foldl_const_of_none _ _ (fun acc i _ => ?_) ⊥
  have hns : normMean sqrt ([] : List (List ℚ)) = none := by simp [normMean]
  unfold windowScore
  rw [hns]
  cases normMean sqrt ((passage.drop i).take (effectiveWindow cfg ([] : List (List ℚ)).length)) <;> rfl

/-- C1: the claim asserts that a perfect self-match (`P = T`,
    `w = len T = len P`) scores `0`; the code iterates
    `xrange(len(passage) - window_size) = xrange(0)`, considers no window at
    all and returns `-inf`.  This theorem evaluates the code at the failing
    input `P = T = [[1]]` with the default window size. -/
theorem C1_self_match_returns_neg_inf :
    score_target sqrtId none [[(1 : ℚ)]] [[(1 : ℚ)]] = ⊥ ∧
      (⊥ : WithBot ℚ) ≠ (0 : WithBot ℚ) := by
  constructor
  · rfl
  · decide

/-- C2: the considered window starts are exactly `0 ≤ i < p - w` (the last
    considered start is `p - w - 1`), and the score is `-inf` (`⊥`) whenever
    the passage is shorter than the effective window, the passage is empty,
    or the target is empty. -/
theorem C2_window_starts_and_edge_cases (sqrt : ℚ → ℚ) (cfg : Option Nat)
    (P T : List (List ℚ)) :
    (∀ i, i ∈ windowStarts cfg P T ↔
        i < P.length - effectiveWindow cfg T.length) ∧
    (∀ i ∈ windowStarts cfg P T,
        i ≤ P.length - effectiveWindow cfg T.length - 1) ∧
    (P.length < effectiveWindow cfg T.length → score_target sqrt cfg P T = ⊥) ∧
    (P = [] → score_target sqrt cfg P T = ⊥) ∧
    (T = [] → score_target sqrt cfg P T = ⊥) := by
  refine ⟨fun i => List.mem_range, fun i hi => ?_, fun hlt => ?_, fun hP => ?_, fun hT => ?_⟩
  · have := List.mem_range.mp hi
    omega
  · unfold score_target windowStarts
    have : P.length - effectiveWindow cfg T.length = 0 := by omega
    rw [this]
    rfl
  · subst hP
    unfold score_target windowStarts
    simp
  · subst hT
    exact score_target_of_target_nil sqrt cfg P

/-- C2 witness: the three edge cases at concrete inputs, and a concrete
    window-start check. -/
theorem C2_witness :
    score_target sqrtId none [[(1 : ℚ)]] [[(1 : ℚ)], [(2 : ℚ)]] = ⊥ ∧
    score_target sqrtId none ([] : List (List ℚ)) [[(1 : ℚ)]] = ⊥ ∧
    score_target sqrtId (some 1) [[(1 : ℚ)], [(2 : ℚ)]] ([] : List (List ℚ)) = ⊥ ∧
    (0 ∈ windowStarts (R := ℚ) (some 1) [[(1 : ℚ)], [(2 : ℚ)]] [] ↔ (0 : ℕ) < 2 - 1) := by
  refine ⟨?_, ?_, ?_, ?_⟩
  · exact (C2_window_starts_and_edge_cases sqrtId none _ _).2.2.1 (by decide)
  · exact (C2_window_starts_and_edge_cases sqrtId none _ _).2.2.2.1 rfl
  · exact (C2_window_starts_and_edge_cases sqrtId (some 1) _ _).2.2.2.2 rfl
  · exact (C2_window_starts_and_edge_cases sqrtId (some 1) _ _).1 0

/-- The per-window score exactly as the spec words it: the negative squared
    Euclidean distance between the L2-normalized element-wise mean of the
    window `P[i .. i+w)` and the L2-normalized element-wise mean of all of
    `T`; stated for comparison with `score_target`. -/
def specWindowScore (sqrt : R → R) (cfg : Option Nat)
    (passage target : List (List R)) (i : Nat) : R :=
  let w := effectiveWindow cfg target.length
  let mw := l2_normalize sqrt (vecMean ((passage.drop i).take w))
  let mt := l2_normalize sqrt (vecMean target);
  -(dot (vecSub mw mt) (vecSub mw mt))

/-- A positive effective window whenever the target is nonempty and the
    configured size (if any) is positive. -/
lemma effectiveWindow_pos (cfg : Option Nat) {T : List (List R)}
    (hw : ∀ w ∈ cfg, 0 < w) (ht : T ≠ []) :
    0 < effectiveWindow cfg T.length := by
  match cfg with
  | none => simpa [effectiveWindow] using List.length_pos.mpr ht
  | some 0 => exact absurd (hw 0 rfl) (by decide)
  | some (w + 1) => simp [effectiveWindow]

/-- A considered window is nonempty. -/
lemma window_ne_nil {cfg : Option Nat} {P T : List (List R)} {i : Nat}
    (hw : ∀ w ∈ cfg, 0 < w) (ht : T ≠ [])
    (hi : i ∈ windowStarts cfg P T) :
    (P.drop i).take (effectiveWindow cfg T.length) ≠ [] := by
  have hpos := effectiveWindow_pos cfg hw ht
  have hlt : i < P.length - effectiveWindow cfg T.length := List.mem_range.mp hi
  have : ((P.drop i).take (effectiveWindow cfg T.length)).length ≠ 0 := by
    rw [List.length_take, List.length_drop]
    omega
  exact fun hnil => this (by rw [hnil]; rfl)

/-- Under the non-degeneracy hypotheses every considered window has a real
    (non-NaN) score, namely the one the spec states. -/
lemma windowScore_eq_some {sqrt : R → R} {cfg : Option Nat}
    {P T : List (List R)} {i : Nat}
    (hw : ∀ w ∈ cfg, 0 < w) (ht : T ≠ [])
    (hT : sqrt (dot (vecMean T) (vecMean T)) ≠ 0)
    (hi : i ∈ windowStarts cfg P T)
    (hwin : sqrt (dot (vecMean ((P.drop i).take (effectiveWindow cfg T.length)))
        (vecMean ((P.drop i).take (effectiveWindow cfg T.length)))) ≠ 0) :
    windowScore sqrt P T (effectiveWindow cfg T.length) i =
      some (specWindowScore sqrt cfg P T i) := by
  have hnil := window_ne_nil hw ht hi
  unfold windowScore specWindowScore normMean
  rw [if_neg hnil, if_neg hwin, if_neg ht, if_neg hT]

/-- A guarded maximum update is an unguarded `max` whenever the guard value
    is present. -/
lemma if_gt_eq_max {γ : Type} [LinearOrder γ] (a b : γ) :
    (if b > a then b else a) = max a b := by
  rcases le_or_lt b a with h | h
  · rw [if_neg (not_lt.mpr h), max_eq_left h]
  · rw [if_pos h, max_eq_right h.le]

/-- Folding the guarded update over starts whose scores are all present is
    folding `max` over the scores themselves. -/
lemma foldl_update_eq_foldl_max (sqrt : R → R) (cfg : Option Nat)
    (P T : List (List R)) (l : List Nat)
    (h : ∀ i ∈ l, windowScore sqrt P T (effectiveWindow cfg T.length) i =
        some (specWindowScore sqrt cfg P T i)) :
    ∀ acc : WithBot R,
      l.foldl
        (fun max_score i =>
          match windowScore sqrt P T (effectiveWindow cfg T.length) i with
          | some score => if (score : WithBot R) > max_score then (score : WithBot R) else max_score
          | none => max_score) acc =
      l.foldl (fun m i => max m ((specWindowScore sqrt cfg P T i : R) : WithBot R)) acc := by
  induction l with
  | nil => intro acc; rfl
  | cons a l ih =>
    intro acc
    rw [List.foldl_cons, List.foldl_cons, h a (List.mem_cons_self a l)]
    dsimp only
    rw [if_gt_eq_max]
    exact ih (fun i hi => h i (List.mem_cons_of_mem a hi)) _

/-- C3: when a (positive) window size is configured the effective window is
    that size, otherwise it is the target length; and, whenever no window
    is degenerate, `score_target` returns the maximum over the considered
    windows of exactly the spec score: the negative squared Euclidean
    distance between the two L2-normalized means. -/
theorem C3_effective_window_and_max_score (sqrt : ℚ → ℚ) (cfg : Option Nat)
    (P T : List (List ℚ))
    (hw : ∀ w ∈ cfg, 0 < w) (ht : T ≠ [])
    (hT : sqrt (dot (vecMean T) (vecMean T)) ≠ 0)
    (hwins : ∀ i ∈ windowStarts cfg P T,
        sqrt (dot (vecMean ((P.drop i).take (effectiveWindow cfg T.length)))
          (vecMean ((P.drop i).take (effectiveWindow cfg T.length)))) ≠ 0) :
    effectiveWindow cfg T.length = cfg.getD T.length ∧
    score_target sqrt cfg P T =
      (windowStarts cfg P T).foldl
        (fun m i => max m ((specWindowScore sqrt cfg P T i : ℚ) : WithBot ℚ)) ⊥ := by
  constructor
  · match cfg with
    | none => rfl
    | some 0 => exact absurd (hw 0 rfl) (by decide)
    | some (w + 1) => rfl
  · unfold score_target
    exact foldl_update_eq_foldl_max sqrt cfg P T _
      (fun i hi => windowScore_eq_some hw ht hT hi (hwins i hi)) ⊥

/-- C3 counterexample: a configured window size of 0 is provided, yet the
    effective window size is the target length (1), not the provided 0:
    `self._window_size or target_size` treats a configured 0 like `None`,
    and the considered window starts are those of window size 1. -/
theorem C3_counterexample :
    effectiveWindow (some 0) 1 = 1 ∧
    (some 0 : Option Nat).getD 1 = 0 ∧
    (1 : Nat) ≠ 0 ∧
    windowStarts (R := ℚ) (some 0) [[(1 : ℚ)], [(1 : ℚ)]] [[(1 : ℚ)]] = [0] := by
  exact ⟨rfl, rfl, by decide, rfl⟩

/-- C3 witness: a two-vector passage, a one-vector target, configured
    window size 1; every mean the scorer meets has squared norm 1, so
    nothing is degenerate. -/
theorem C3_witness :
    ((∀ w ∈ (some 1 : Option Nat), 0 < w) ∧
     ([[(1 : ℚ)]] : List (List ℚ)) ≠ [] ∧
     sqrtId (dot (vecMean [[(1 : ℚ)]]) (vecMean [[(1 : ℚ)]])) ≠ 0 ∧
     (∀ i ∈ windowStarts (some 1) [[(1 : ℚ)], [(1 : ℚ)]] [[(1 : ℚ)]],
        sqrtId (dot
          (vecMean (([[(1 : ℚ)], [(1 : ℚ)]].drop i).take
            (effectiveWindow (some 1) ([[(1 : ℚ)]] : List (List ℚ)).length)))
          (vecMean (([[(1 : ℚ)], [(1 : ℚ)]].drop i).take
            (effectiveWindow (some 1) ([[(1 : ℚ)]] : List (List ℚ)).length)))) ≠ 0)) ∧
    (effectiveWindow (some 1) ([[(1 : ℚ)]] : List (List ℚ)).length =
        (some 1 : Option Nat).getD ([[(1 : ℚ)]] : List (List ℚ)).length ∧
     score_target sqrtId (some 1) [[(1 : ℚ)], [(1 : ℚ)]] [[(1 : ℚ)]] =
      (windowStarts (some 1) [[(1 : ℚ)], [(1 : ℚ)]] [[(1 : ℚ)]]).foldl
        (fun m i => max m
          ((specWindowScore sqrtId (some 1) [[(1 : ℚ)], [(1 : ℚ)]] [[(1 : ℚ)]] i : ℚ) : WithBot ℚ)) ⊥) := by
  have hw : ∀ w ∈ (some 1 : Option Nat), 0 < w := by decide
  have ht : ([[(1 : ℚ)]] : List (List ℚ)) ≠ [] := by simp
  have hT : sqrtId (dot (vecMean [[(1 : ℚ)]]) (vecMean [[(1 : ℚ)]])) ≠ 0 := by
    simp [sqrtId, dot, vecMean, scale, vecAdd]
  have hwins : ∀ i ∈ windowStarts (some 1) [[(1 : ℚ)], [(1 : ℚ)]] [[(1 : ℚ)]],
      sqrtId (dot
        (vecMean (([[(1 : ℚ)], [(1 : ℚ)]].drop i).take
          (effectiveWindow (some 1) ([[(1 : ℚ)]] : List (List ℚ)).length)))
        (vecMean (([[(1 : ℚ)], [(1 : ℚ)]].drop i).take
          (effectiveWindow (some 1) ([[(1 : ℚ)]] : List (List ℚ)).length)))) ≠ 0 := by
    intro i hi
    have h1 : i < 1 := by simpa [windowStarts, effectiveWindow] using List.mem_range.mp hi
    have h0 : i = 0 := by omega
    subst h0
    simp [sqrtId, dot, vecMean, scale, vecAdd, effectiveWindow]
  exact ⟨⟨hw, ht, hT, hwins⟩,
    C3_effective_window_and_max_score sqrtId (some 1) _ _ hw ht hT hwins⟩

/-! Part 2: the record model (`mctest_pb2` messages, as used by
    `parse.py` and `baseline-embed.py`): a Story holds an id, a
    description, a passage and questions; a Question holds a type, its
    tokens and its answers.  One generic schema covers the token form
    (`τ = String`) and the embedding form (`τ = List ℚ`). -/

/-- Question type enum (`QuestionAsWords.ONE` / `MULTIPLE`). -/
inductive QType where
  | ONE : QType
  | MULTIPLE : QType
deriving DecidableEq

/-- Answer message: the candidate answer tokens (or vectors). -/
structure Answer (τ : Type) where
  tokens : List τ
deriving DecidableEq

/-- Question message: type, question tokens (or vectors), answers. -/
structure Question (τ : Type) where
  type : QType
  tokens : List τ
  answers : List (Answer τ)
deriving DecidableEq

/-- Story message: id, description, passage, questions. -/
structure Story (τ : Type) where
  id : String
  description : String
  passage : List τ
  questions : List (Question τ)
deriving DecidableEq

/-! Part 3: token-to-embedding substitution (`baseline-embed.py` lines
    67-76 and the `to_embeddings` mapper of `parse.py` lines 180-187).
    The word2vec table becomes an abstract partial map
    `model : String → Option (List R)`; a `KeyError` is `none`. -/

/-- Source `tokens_to_embeddings`: look each token up lower-cased,
    appending the vector on a hit and only warning on a miss. -/
def tokens_to_embeddings (model : String → Option (List R))
    (tokens : List String) : List (List R) :=
  tokens.foldl
    (fun embeds token =>
      match model token.toLower with
      | some v => embeds ++ [v]
      | none => embeds)
    []

/-- Source `to_embeddings` token mapper of `parse.py`: the lower-cased
    lookup, `None` on a vocabulary miss. -/
def to_embeddings (model : String → Option (List R)) (token : String) :
    Option (List R) :=
  model token.toLower

/-- Source `tokenize` mapper stage of `parse.py` (line 195): map the
    mapper over the tokens, then drop the `None` results. -/
def mapper_stage {α : Type} (mapper : String → Option α)
    (tokens : List String) : List (Option α) :=
  (tokens.map mapper).filter (fun x => x.isSome)

/-- The append-style fold of `tokens_to_embeddings` is a `filterMap`. -/
lemma tokens_to_embeddings_foldl (model : String → Option (List R))
    (tokens : List String) :
    ∀ acc : List (List R),
      tokens.foldl
        (fun embeds token =>
          match model token.toLower with
          | some v => embeds ++ [v]
          | none => embeds)
        acc = acc ++ tokens.filterMap (fun t => model t.toLower) := by
  induction tokens with
  | nil => intro acc; simp
  | cons t ts ih =>
    intro acc
    rw [List.foldl_cons]
    cases h : model t.toLower with
    | none => rw [ih]; simp [List.filterMap_cons, h]
    | some v => rw [ih]; simp [List.filterMap_cons, h]

/-- Dropped-token bookkeeping: `filterMap` keeps exactly the tokens whose
    lookup succeeds. -/
lemma length_filterMap_eq_length_filter {α β : Type} (g : α → Option β)
    (l : List α) :
    (l.filterMap g).length = (l.filter (fun a => (g a).isSome)).length := by
  induction l with
  | nil => rfl
  | cons a l ih =>
    cases h : g a with
    | none => simp [List.filterMap_cons, List.filter_cons, h, ih]
    | some b => simp [List.filterMap_cons, List.filter_cons, h, ih]

/-- C8: a token whose lower-cased form is missing from the table is
    dropped (nothing is inserted in its place), present tokens map to
    their vectors in input order, the output length is the number of
    present tokens, and the `parse.py` mapper stage drops exactly the
    `None` results of the same lower-cased lookup. -/
theorem C8_vocabulary_miss_drops_token (model : String → Option (List ℚ))
    (tokens : List String) :
    tokens_to_embeddings model tokens =
      tokens.filterMap (fun t => model t.toLower) ∧
    (tokens_to_embeddings model tokens).length =
      (tokens.filter (fun t => (model t.toLower).isSome)).length ∧
    mapper_stage (to_embeddings model) tokens =
      (tokens.filterMap (fun t => model t.toLower)).map some := by
  have h1 : tokens_to_embeddings model tokens =
      tokens.filterMap (fun t => model t.toLower) := by
    unfold tokens_to_embeddings
    rw [tokens_to_embeddings_foldl]
    rfl
  refine ⟨h1, ?_, ?_⟩
  · rw [h1]
    exact length_filterMap_eq_length_filter _ _
  · unfold mapper_stage to_embeddings
    clear h1
    induction tokens with
    | nil => rfl
    | cons t ts ih =>
      cases h : model t.toLower with
      | none => simpa [List.filterMap_cons, h] using ih
      | some v => simpa [List.filterMap_cons, h] using ih

/-! Part 4: prediction (`baseline-embed.py` line 115 and lines 102-115)
    and evaluation (lines 117-139). -/

/-- Source line 21. -/
def ANSWER_LETTER : List Char := ['A', 'B', 'C', 'D']

/-- Source line 115: `ANSWER_LETTER[scores.index(max(scores))]`: Python
    max over a nonempty list followed by `.index`, which finds the first
    (lowest-index) occurrence of the maximum.  Indexed with `getD`; for
    four answers the index is at most 3. -/
def chooseLetter (scores : List (WithBot R)) : Char :=
  ANSWER_LETTER.getD (scores.indexOf (scores.foldl max ⊥)) 'A'

lemma le_foldl_max {γ : Type} [LinearOrder γ] (l : List γ) :
    ∀ b : γ, b ≤ l.foldl max b := by
  induction l with
  | nil => intro b; exact le_refl b
  | cons a l ih =>
    intro b
    rw [List.foldl_cons]
    exact le_trans (le_max_left b a) (ih (max b a))

lemma mem_le_foldl_max {γ : Type} [LinearOrder γ] (l : List γ) :
    ∀ b : γ, ∀ x ∈ l, x ≤ l.foldl max b := by
  induction l with
  | nil => intro b x hx; cases hx
  | cons a l ih =>
    intro b x hx
    rw [List.foldl_cons]
    rcases List.mem_cons.mp hx with h | h
    · rw [h]
      exact le_trans (le_max_right b a) (le_foldl_max l (max b a))
    · exact ih (max b a) x h

lemma foldl_max_mem {γ : Type} [LinearOrder γ] (l : List γ) :
    ∀ b : γ, l.foldl max b = b ∨ l.foldl max b ∈ l := by
  induction l with
  | nil => intro b; exact Or.inl rfl
  | cons a l ih =>
    intro b
    rw [List.foldl_cons]
    rcases ih (max b a) with h | h
    · rcases max_choice b a with hb | ha
      · exact Or.inl (h.trans hb)
      · exact Or.inr (List.mem_cons.mpr (Or.inl (h.trans ha)))
    · exact Or.inr (List.mem_cons.mpr (Or.inr h))

/-- indexOf finds `j` when position `j` holds the value and no earlier
    position does. -/
lemma indexOf_eq_of_first {γ : Type} [DecidableEq γ] :
    ∀ (l : List γ) (j : Nat) (hj : j < l.length),
      (∀ i (hi : i < j), l.get ⟨i, lt_trans hi hj⟩ ≠ l.get ⟨j, hj⟩) →
      l.indexOf (l.get ⟨j, hj⟩) = j := by
  intro l
  induction l with
  | nil => intro j hj; cases hj |> Nat.not_lt_zero j
  | cons a t ih =>
    intro j hj hfirst
    match j with
    | 0 => exact List.indexOf_cons_self a t
    | jj + 1 =>
      have hjj : jj < t.length := Nat.lt_of_succ_lt_succ hj
      have ha : a ≠ t.get ⟨jj, hjj⟩ := hfirst 0 (Nat.succ_pos jj)
      show List.indexOf (t.get ⟨jj, hjj⟩) (a :: t) = jj + 1
      rw [List.indexOf_cons_ne t ha]
      have hrec := ih jj hjj (fun i hi => hfirst (i + 1) (Nat.succ_lt_succ hi))
      omega

/-- C9: when several answers tie for the maximal score, the predicted
    letter is the one at the lowest tied index (index 0..3 mapped to
    A..D): if `j` is the least index attaining the maximum, `chooseLetter`
    picks the letter at `j`. -/
theorem C9_tie_break_lowest_index (scores : List (WithBot ℚ))
    (j : Fin scores.length) (h4 : scores.length = 4)
    (hmax : ∀ i : Fin scores.length, scores.get i ≤ scores.get j)
    (hfirst : ∀ i : Fin scores.length,
        scores.get i = scores.get j → (j : Nat) ≤ (i : Nat)) :
    chooseLetter scores = ANSWER_LETTER.getD (j : Nat) 'A' ∧ (j : Nat) < 4 := by
  have hv : scores.foldl max ⊥ = scores.get j := by
    apply le_antisymm
    · rcases foldl_max_mem scores ⊥ with h | h
      · rw [h]; exact bot_le
      · obtain ⟨i, hgi⟩ := List.mem_iff_get.mp h
        rw [← hgi]
        exact hmax i
    · exact mem_le_foldl_max scores ⊥ _ (scores.get_mem j j.isLt)
  have hidx : scores.indexOf (scores.get j) = (j : Nat) := by
    have : j = (⟨(j : Nat), j.isLt⟩ : Fin scores.length) := by
      exact Fin.ext rfl
    rw [this]
    apply indexOf_eq_of_first scores (j : Nat) j.isLt
    intro i hi heq
    have h1 := hfirst ⟨i, lt_trans hi j.isLt⟩ (by rw [← this] at heq; exact heq)
    have h2 : (j : Nat) ≤ i := h1
    omega
  constructor
  · unfold chooseLetter
    rw [hv, hidx]
  · exact h4 ▸ j.isLt

/-- C9 witness: scores `[0, 1, 1, -inf]` tie at indices 1 and 2; the
    prediction is the letter at index 1, namely B. -/
theorem C9_witness :
    (([(0 : WithBot ℚ), 1, 1, ⊥] : List (WithBot ℚ)).length = 4 ∧
     (∀ i : Fin ([(0 : WithBot ℚ), 1, 1, ⊥] : List (WithBot ℚ)).length,
        ([(0 : WithBot ℚ), 1, 1, ⊥] : List (WithBot ℚ)).get i ≤
          ([(0 : WithBot ℚ), 1, 1, ⊥] : List (WithBot ℚ)).get ⟨1, by decide⟩) ∧
     (∀ i : Fin ([(0 : WithBot ℚ), 1, 1, ⊥] : List (WithBot ℚ)).length,
        ([(0 : WithBot ℚ), 1, 1, ⊥] : List (WithBot ℚ)).get i =
          ([(0 : WithBot ℚ), 1, 1, ⊥] : List (WithBot ℚ)).get ⟨1, by decide⟩ →
          (1 : Nat) ≤ (i : Nat))) ∧
    chooseLetter [(0 : WithBot ℚ), 1, 1, ⊥] = ANSWER_LETTER.getD 1 'A' := by
  have hmax : ∀ i : Fin ([(0 : WithBot ℚ), 1, 1, ⊥] : List (WithBot ℚ)).length,
      ([(0 : WithBot ℚ), 1, 1, ⊥] : List (WithBot ℚ)).get i ≤
        ([(0 : WithBot ℚ), 1, 1, ⊥] : List (WithBot ℚ)).get ⟨1, by decide⟩ := by
    decide
  have hfirst : ∀ i : Fin ([(0 : WithBot ℚ), 1, 1, ⊥] : List (WithBot ℚ)).length,
      ([(0 : WithBot ℚ), 1, 1, ⊥] : List (WithBot ℚ)).get i =
        ([(0 : WithBot ℚ), 1, 1, ⊥] : List (WithBot ℚ)).get ⟨1, by decide⟩ →
        (1 : Nat) ≤ (i : Nat) := by
    decide
  exact ⟨⟨rfl, hmax, hfirst⟩,
    (C9_tie_break_lowest_index [(0 : WithBot ℚ), 1, 1, ⊥] ⟨1, by decide⟩ rfl
      hmax hfirst).1⟩

/-- numpy `answers == predicted` summed: the number of positions where the
    two equal-length sequences agree. -/
def countMatches (xs ys : List Char) : Nat :=
  (List.zipWith (fun a b => if a = b then (1 : Nat) else 0) xs ys).sum

/-- Source lines 117-139: the evaluation block.  The two `assert`
    statements become `Except.error` (an `AssertionError` aborts the
    process before any accuracy line is printed); `single` is the mask
    `q_types == ONE`, `n_single` its popcount and `n_multiple` the
    popcount of its complement; the result triple is (all, single,
    multiple) accuracy.  ℚ division by zero is `0` where numpy would give
    NaN for an empty type class; the verified claim does not touch the
    per-type values. -/
def evaluate (answers predicted : List Char) (q_types : List QType) :
    Except String (ℚ × ℚ × ℚ) :=
  if answers.length = predicted.length then
    if (q_types.filter (fun t => t = QType.ONE)).length +
        (q_types.length - (q_types.filter (fun t => t = QType.ONE)).length) =
          answers.length then
      let pairs := q_types.zip (answers.zip predicted)
      let singleHits := (pairs.filter (fun p => p.1 = QType.ONE)).countP
        (fun p => p.2.1 = p.2.2)
      let multipleHits := (pairs.filter (fun p => ¬p.1 = QType.ONE)).countP
        (fun p => p.2.1 = p.2.2)
      Except.ok
        ((countMatches answers predicted : ℚ) / (predicted.length : ℚ),
         (singleHits : ℚ) / (((q_types.filter (fun t => t = QType.ONE)).length : ℕ) : ℚ),
         (multipleHits : ℚ) /
           ((q_types.length - (q_types.filter (fun t => t = QType.ONE)).length : ℕ) : ℚ))
    else Except.error "AssertionError: n_single plus n_multiple equals len(answers)"
  else Except.error "AssertionError: len(answers) equals len(predicted)"

/-- With only two question types, counting ONE and MULTIPLE exhausts the
    list. -/
lemma count_ONE_add_count_MULTIPLE (q_types : List QType) :
    (q_types.filter (fun t => t = QType.ONE)).length +
      (q_types.filter (fun t => t = QType.MULTIPLE)).length = q_types.length := by
  induction q_types with
  | nil => rfl
  | cons t ts ih =>
    cases t <;> simp [List.filter_cons] <;> omega

/-- C10: with ground truth supplied, evaluation aborts (producing no
    accuracy output) when the label count differs from the prediction
    count or when the ONE-count plus MULTIPLE-count differs from the
    total; when both checks pass, the overall accuracy is the fraction of
    positions where prediction equals ground truth. -/
theorem C10_evaluation_checks_and_accuracy (answers predicted : List Char)
    (q_types : List QType) :
    ((answers.length ≠ predicted.length ∨
        (q_types.filter (fun t => t = QType.ONE)).length +
          (q_types.filter (fun t => t = QType.MULTIPLE)).length ≠
            answers.length) →
      ∃ msg, evaluate answers predicted q_types = Except.error msg) ∧
    (answers.length = predicted.length →
      (q_types.filter (fun t => t = QType.ONE)).length +
        (q_types.filter (fun t => t = QType.MULTIPLE)).length =
          answers.length →
      ∃ s m, evaluate answers predicted q_types =
        Except.ok ((countMatches answers predicted : ℚ) /
          (predicted.length : ℚ), s, m)) := by
  have hbridge := count_ONE_add_count_MULTIPLE q_types
  have hle : (q_types.filter (fun t => t = QType.ONE)).length ≤ q_types.length :=
    List.length_filter_le _ _
  constructor
  · intro h
    rcases h with h | h
    · have heq : evaluate answers predicted q_types =
          Except.error "AssertionError: len(answers) equals len(predicted)" := by
        unfold evaluate
        rw [if_neg h]
      exact ⟨_, heq⟩
    · by_cases h1 : answers.length = predicted.length
      · have heq : evaluate answers predicted q_types =
            Except.error
              "AssertionError: n_single plus n_multiple equals len(answers)" := by
          unfold evaluate
          rw [if_pos h1, if_neg (by omega)]
        exact ⟨_, heq⟩
      · have heq : evaluate answers predicted q_types =
            Except.error "AssertionError: len(answers) equals len(predicted)" := by
          unfold evaluate
          rw [if_neg h1]
        exact ⟨_, heq⟩
  · intro h1 h2
    have heq : evaluate answers predicted q_types =
        Except.ok ((countMatches answers predicted : ℚ) / (predicted.length : ℚ),
          ((((q_types.zip (answers.zip predicted)).filter
              (fun p => p.1 = QType.ONE)).countP (fun p => p.2.1 = p.2.2) : ℕ) : ℚ) /
            (((q_types.filter (fun t => t = QType.ONE)).length : ℕ) : ℚ),
          ((((q_types.zip (answers.zip predicted)).filter
              (fun p => ¬p.1 = QType.ONE)).countP (fun p => p.2.1 = p.2.2) : ℕ) : ℚ) /
            ((q_types.length - (q_types.filter (fun t => t = QType.ONE)).length : ℕ) : ℚ)) := by
      unfold evaluate
      rw [if_pos h1, if_pos (by omega)]
    exact ⟨_, _, heq⟩

/-- C10 witness: the spec evaluation scenario (predictions `A B A D`
    against truth `A B C D`, two ONE and two MULTIPLE questions) passes
    both checks with overall accuracy `3 / 4`, and a one-label,
    two-prediction run aborts. -/
theorem C10_witness :
    (∃ s m, evaluate ['A', 'B', 'C', 'D'] ['A', 'B', 'A', 'D']
        [QType.ONE, QType.ONE, QType.MULTIPLE, QType.MULTIPLE] =
      Except.ok ((countMatches ['A', 'B', 'C', 'D'] ['A', 'B', 'A', 'D'] : ℚ) /
        ((['A', 'B', 'A', 'D'] : List Char).length : ℚ), s, m)) ∧
    countMatches ['A', 'B', 'C', 'D'] ['A', 'B', 'A', 'D'] = 3 ∧
    (∃ msg, evaluate ['A'] ['A', 'B'] [QType.ONE] = Except.error msg) := by
  refine ⟨?_, by decide, ?_⟩
  · exact (C10_evaluation_checks_and_accuracy _ _ _).2 (by decide) (by decide)
  · exact (C10_evaluation_checks_and_accuracy _ _ _).1 (Or.inl (by decide))

/-! Part 5: the `__main__` scoring loop of `baseline-embed.py`
    (lines 102-115) and its prediction output (lines 140-142). -/

/-- One iteration of the inner question loop (lines 104-115).  The local
    variable `scores` is read by the debug print on line 110 before its
    first assignment on line 112, so it is modelled as an `Option`-valued
    register that starts out unassigned; reading it unassigned raises
    `NameError`.  On later iterations the stale value from the previous
    question is printed and execution continues. -/
def questionStep (sqrt : R → R) (cfg : Option Nat) (passage : List (List R))
    (acc : Option (List (WithBot R)) × List Char × List QType)
    (q : Question (List R)) :
    Except String (Option (List (WithBot R)) × List Char × List QType) :=
  let q_types := acc.2.2 ++ [q.type]
  match acc.1 with
  | none => Except.error "NameError: name scores is not defined"
  | some _ =>
    let scores := q.answers.map
      (fun a => score_target sqrt cfg passage (q.tokens ++ a.tokens))
    Except.ok (some scores, acc.2.1 ++ [chooseLetter scores], q_types)

/-- The inner loop over one story's questions. -/
def runQuestions (sqrt : R → R) (cfg : Option Nat) (passage : List (List R)) :
    Option (List (WithBot R)) × List Char × List QType →
    List (Question (List R)) →
    Except String (Option (List (WithBot R)) × List Char × List QType)
  | acc, [] => Except.ok acc
  | acc, q :: qs =>
    match questionStep sqrt cfg passage acc q with
    | Except.error e => Except.error e
    | Except.ok acc2 => runQuestions sqrt cfg passage acc2 qs

/-- The outer loop over the parsed stories. -/
def runStories (sqrt : R → R) (cfg : Option Nat) :
    Option (List (WithBot R)) × List Char × List QType →
    List (Story (List R)) →
    Except String (Option (List (WithBot R)) × List Char × List QType)
  | acc, [] => Except.ok acc
  | acc, st :: sts =>
    match runQuestions sqrt cfg st.passage acc st.questions with
    | Except.error e => Except.error e
    | Except.ok acc2 => runStories sqrt cfg acc2 sts

/-- The scoring loop, returning (on success) the predicted letters in
    question order, which lines 140-142 print one per line when no ground
    truth is given. -/
def scoringLoop (sqrt : R → R) (cfg : Option Nat)
    (stories : List (Story (List R))) : Except String (List Char) :=
  match runStories sqrt cfg (none, [], []) stories with
  | Except.error e => Except.error e
  | Except.ok acc => Except.ok acc.2.1

/-- One embedding-form story with a single question used to evaluate the
    scoring loop at a failing input. -/
def demoStory : Story (List ℚ) :=
  { id := "mc500.train.0"
    description := "demo"
    passage := [[1]]
    questions := [{ type := QType.ONE
                    tokens := [[1]]
                    answers := [⟨[[1]]⟩, ⟨[[1]]⟩, ⟨[[1]]⟩, ⟨[[1]]⟩] }] }

/-- C4: the claim says score mode emits one predicted letter per question;
    on any input with at least one question the loop instead raises
    `NameError` at the debug print of line 110 (the variable `scores` is
    read before its first assignment) and no letter is emitted.  This
    theorem evaluates the loop at a one-story, one-question input. -/
theorem C4_scoring_loop_raises_name_error :
    scoringLoop sqrtId none [demoStory] =
      Except.error "NameError: name scores is not defined" ∧
    ([demoStory].foldl (fun n st => n + st.questions.length) 0) = 1 := by
  exact ⟨rfl, rfl⟩

/-! Part 6: the stream codec (`parse.py` lines 122-144).  The protobuf
    message layer (`mctest_pb2`, generated code not present in the
    repository) is modelled from the spec.

    Modelled from the spec: "serialize it to a byte payload
    (format-agnostic: any self-describing structured-encoding scheme
    serviceable, e.g. a tagged binary encoding)".  `SerializeToString`
    becomes a concrete self-delimiting binary encoding of a `Story`
    (varint-style length fields, one varint per character or number), and
    `ParseFromString` its decoder, which consumes the whole buffer exactly
    as the protobuf parser does. -/

/-- Little-endian base-128 varint encoder; `fuel` bounds the recursion and
    any `fuel ≥ n` gives the same bytes. -/
def encodeNatAux : Nat → Nat → List Nat
  | 0, n => [n % 128]
  | fuel + 1, n =>
    if n < 128 then [n] else (n % 128 + 128) :: encodeNatAux fuel (n / 128)

/-- Varint encoding of a natural number (every byte < 256). -/
def encodeNat (n : Nat) : List Nat := encodeNatAux n n

/-- Varint decoder, returning the value and the unconsumed bytes. -/
def decodeNat : List Nat → Option (Nat × List Nat)
  | [] => none
  | b :: rest =>
    if b < 128 then some (b, rest)
    else
      match decodeNat rest with
      | some (m, r) => some (b - 128 + 128 * m, r)
      | none => none

lemma decodeNat_encodeNatAux :
    ∀ fuel n rest, n ≤ fuel →
      decodeNat (encodeNatAux fuel n ++ rest) = some (n, rest) := by
  intro fuel
  induction fuel with
  | zero =>
    intro n rest h
    have : n = 0 := Nat.le_zero.mp h
    subst this
    simp [encodeNatAux, decodeNat]
  | succ f ih =>
    intro n rest h
    by_cases hn : n < 128
    · simp [encodeNatAux, hn, decodeNat]
    · have hrec := ih (n / 128) rest (by omega)
      simp only [encodeNatAux, if_neg hn, List.cons_append, decodeNat,
        if_neg (by omega : ¬n % 128 + 128 < 128), hrec]
      have : n % 128 + 128 - 128 + 128 * (n / 128) = n := by omega
      rw [this]

/-- Varint round-trip. -/
lemma decodeNat_encodeNat (n : Nat) (rest : List Nat) :
    decodeNat (encodeNat n ++ rest) = some (n, rest) :=
  decodeNat_encodeNatAux n n rest (le_refl n)

/-- Character-sequence encoder: one varint per code point. -/
def encodeChars : List Char → List Nat
  | [] => []
  | c :: cs => encodeNat c.toNat ++ encodeChars cs

/-- Character-sequence decoder for a known count. -/
def decodeChars : Nat → List Nat → Option (List Char × List Nat)
  | 0, bs => some ([], bs)
  | n + 1, bs =>
    match decodeNat bs with
    | none => none
    | some (m, r) =>
      match decodeChars n r with
      | none => none
      | some (cs, r2) => some (Char.ofNat m :: cs, r2)

lemma decodeChars_encodeChars (cs : List Char) (rest : List Nat) :
    decodeChars cs.length (encodeChars cs ++ rest) = some (cs, rest) := by
  induction cs generalizing rest with
  | nil => rfl
  | cons c cs ih =>
    simp only [encodeChars, List.length_cons, List.append_assoc, decodeChars,
      decodeNat_encodeNat, ih, Char.ofNat_toNat]

/-- String encoder: length then code points. -/
def encodeString (s : String) : List Nat :=
  encodeNat s.data.length ++ encodeChars s.data

/-- String decoder. -/
def decodeString (bs : List Nat) : Option (String × List Nat) :=
  match decodeNat bs with
  | none => none
  | some (n, r) =>
    match decodeChars n r with
    | none => none
    | some (cs, r2) => some (String.mk cs, r2)

lemma decodeString_encodeString (s : String) (rest : List Nat) :
    decodeString (encodeString s ++ rest) = some (s, rest) := by
  simp only [encodeString, List.append_assoc, decodeString, decodeNat_encodeNat,
    decodeChars_encodeChars]

/-- Concatenated encodings of the list elements (no length field). -/
def encodeListPayload {τ : Type} (encτ : τ → List Nat) : List τ → List Nat
  | [] => []
  | x :: xs => encτ x ++ encodeListPayload encτ xs

/-- List encoder: element count then the element encodings. -/
def encList {τ : Type} (encτ : τ → List Nat) (l : List τ) : List Nat :=
  encodeNat l.length ++ encodeListPayload encτ l

/-- Element-by-element decoder for a known count. -/
def decodeCount {τ : Type} (decτ : List Nat → Option (τ × List Nat)) :
    Nat → List Nat → Option (List τ × List Nat)
  | 0, bs => some ([], bs)
  | n + 1, bs =>
    match decτ bs with
    | none => none
    | some (x, r) =>
      match decodeCount decτ n r with
      | none => none
      | some (xs, r2) => some (x :: xs, r2)

/-- List decoder. -/
def decList {τ : Type} (decτ : List Nat → Option (τ × List Nat))
    (bs : List Nat) : Option (List τ × List Nat) :=
  match decodeNat bs with
  | none => none
  | some (n, r) => decodeCount decτ n r

lemma decodeCount_encodeListPayload {τ : Type} {encτ : τ → List Nat}
    {decτ : List Nat → Option (τ × List Nat)}
    (hτ : ∀ x rest, decτ (encτ x ++ rest) = some (x, rest))
    (l : List τ) (rest : List Nat) :
    decodeCount decτ l.length (encodeListPayload encτ l ++ rest) =
      some (l, rest) := by
  induction l generalizing rest with
  | nil => rfl
  | cons x xs ih =>
    simp only [encodeListPayload, List.length_cons, List.append_assoc,
      decodeCount, hτ, ih]

lemma decList_encList {τ : Type} {encτ : τ → List Nat}
    {decτ : List Nat → Option (τ × List Nat)}
    (hτ : ∀ x rest, decτ (encτ x ++ rest) = some (x, rest))
    (l : List τ) (rest : List Nat) :
    decList decτ (encList encτ l ++ rest) = some (l, rest) := by
  simp only [encList, List.append_assoc, decList, decodeNat_encodeNat,
    decodeCount_encodeListPayload hτ]

/-- Question-type tag byte. -/
def encodeQType : QType → List Nat
  | QType.ONE => [0]
  | QType.MULTIPLE => [1]

/-- Question-type decoder. -/
def decodeQType : List Nat → Option (QType × List Nat)
  | 0 :: r => some (QType.ONE, r)
  | 1 :: r => some (QType.MULTIPLE, r)
  | _ => none

lemma decodeQType_encodeQType (t : QType) (rest : List Nat) :
    decodeQType (encodeQType t ++ rest) = some (t, rest) := by
  cases t <;> rfl

/-- Answer message encoder. -/
def encodeAnswer {τ : Type} (encτ : τ → List Nat) (a : Answer τ) : List Nat :=
  encList encτ a.tokens

/-- Answer message decoder. -/
def decodeAnswer {τ : Type} (decτ : List Nat → Option (τ × List Nat))
    (bs : List Nat) : Option (Answer τ × List Nat) :=
  match decList decτ bs with
  | none => none
  | some (ts, r) => some (⟨ts⟩, r)

lemma decodeAnswer_encodeAnswer {τ : Type} {encτ : τ → List Nat}
    {decτ : List Nat → Option (τ × List Nat)}
    (hτ : ∀ x rest, decτ (encτ x ++ rest) = some (x, rest))
    (a : Answer τ) (rest : List Nat) :
    decodeAnswer decτ (encodeAnswer encτ a ++ rest) = some (a, rest) := by
  simp only [encodeAnswer, decodeAnswer, decList_encList hτ]

/-- Question message encoder. -/
def encodeQuestion {τ : Type} (encτ : τ → List Nat) (q : Question τ) :
    List Nat :=
  encodeQType q.type ++ encList encτ q.tokens ++
    encList (encodeAnswer encτ) q.answers

/-- Question message decoder. -/
def decodeQuestion {τ : Type} (decτ : List Nat → Option (τ × List Nat))
    (bs : List Nat) : Option (Question τ × List Nat) :=
  match decodeQType bs with
  | none => none
  | some (ty, r1) =>
    match decList decτ r1 with
    | none => none
    | some (ts, r2) =>
      match decList (decodeAnswer decτ) r2 with
      | none => none
      | some (ans, r3) => some (⟨ty, ts, ans⟩, r3)

lemma decodeQuestion_encodeQuestion {τ : Type} {encτ : τ → List Nat}
    {decτ : List Nat → Option (τ × List Nat)}
    (hτ : ∀ x rest, decτ (encτ x ++ rest) = some (x, rest))
    (q : Question τ) (rest : List Nat) :
    decodeQuestion decτ (encodeQuestion encτ q ++ rest) = some (q, rest) := by
  simp only [encodeQuestion, List.append_assoc, decodeQuestion,
    decodeQType_encodeQType, decList_encList hτ,
    decList_encList (decodeAnswer_encodeAnswer hτ)]

/-- Story message encoder (the `SerializeToString` model). -/
def encodeStory {τ : Type} (encτ : τ → List Nat) (s : Story τ) : List Nat :=
  encodeString s.id ++ encodeString s.description ++ encList encτ s.passage ++
    encList (encodeQuestion encτ) s.questions

/-- Story message decoder. -/
def decodeStory {τ : Type} (decτ : List Nat → Option (τ × List Nat))
    (bs : List Nat) : Option (Story τ × List Nat) :=
  match decodeString bs with
  | none => none
  | some (i, r1) =>
    match decodeString r1 with
    | none => none
    | some (d, r2) =>
      match decList decτ r2 with
      | none => none
      | some (p, r3) =>
        match decList (decodeQuestion decτ) r3 with
        | none => none
        | some (qs, r4) => some (⟨i, d, p, qs⟩, r4)

lemma decodeStory_encodeStory {τ : Type} {encτ : τ → List Nat}
    {decτ : List Nat → Option (τ × List Nat)}
    (hτ : ∀ x rest, decτ (encτ x ++ rest) = some (x, rest))
    (s : Story τ) (rest : List Nat) :
    decodeStory decτ (encodeStory encτ s ++ rest) = some (s, rest) := by
  simp only [encodeStory, List.append_assoc, decodeStory,
    decodeString_encodeString, decList_encList hτ,
    decList_encList (decodeQuestion_encodeQuestion hτ)]

/-- The `ParseFromString` model: decode a whole buffer into one Story; the
    protobuf parser consumes the entire byte string, so trailing bytes are
    a decode failure. -/
def parseStory {τ : Type} (decτ : List Nat → Option (τ × List Nat))
    (bs : List Nat) : Option (Story τ) :=
  match decodeStory decτ bs with
  | some (s, []) => some s
  | _ => none

lemma parseStory_encodeStory {τ : Type} {encτ : τ → List Nat}
    {decτ : List Nat → Option (τ × List Nat)}
    (hτ : ∀ x rest, decτ (encτ x ++ rest) = some (x, rest)) (s : Story τ) :
    parseStory decτ (encodeStory encτ s) = some s := by
  have h := decodeStory_encodeStory hτ s []
  rw [List.append_nil] at h
  simp only [parseStory, h]

/-- Zigzag varint encoder for integers. -/
def encodeInt (i : Int) : List Nat :=
  if 0 ≤ i then encodeNat (2 * i.toNat) else encodeNat (2 * (-i).toNat - 1)

/-- Zigzag varint decoder. -/
def decodeInt (bs : List Nat) : Option (Int × List Nat) :=
  match decodeNat bs with
  | none => none
  | some (n, r) =>
    if n % 2 = 0 then some (((n / 2 : Nat) : Int), r)
    else some (-(((n + 1) / 2 : Nat) : Int), r)

lemma decodeInt_encodeInt (i : Int) (rest : List Nat) :
    decodeInt (encodeInt i ++ rest) = some (i, rest) := by
  by_cases h : 0 ≤ i
  · simp only [encodeInt, if_pos h, decodeInt, decodeNat_encodeNat]
    rw [if_pos (by omega)]
    congr 1
    congr 1
    omega
  · simp only [encodeInt, if_neg h, decodeInt, decodeNat_encodeNat]
    rw [if_neg (by omega)]
    congr 1
    congr 1
    omega

/-- Rational encoder: zigzag numerator then denominator. -/
def encodeRat (q : ℚ) : List Nat := encodeInt q.num ++ encodeNat q.den

/-- Rational decoder. -/
def decodeRat (bs : List Nat) : Option (ℚ × List Nat) :=
  match decodeInt bs with
  | none => none
  | some (n, r) =>
    match decodeNat r with
    | none => none
    | some (d, r2) => some (mkRat n d, r2)

lemma decodeRat_encodeRat (q : ℚ) (rest : List Nat) :
    decodeRat (encodeRat q ++ rest) = some (q, rest) := by
  simp only [encodeRat, List.append_assoc, decodeRat, decodeInt_encodeInt,
    decodeNat_encodeNat, Rat.mkRat_self]

/-- Source line 124: `struct.pack('I', n)`, a 4-byte little-endian
    unsigned length (the host order of both reference runs). -/
def pack4 (n : Nat) : List Nat :=
  [n % 256, n / 256 % 256, n / 65536 % 256, n / 16777216 % 256]

/-- Source line 139: `struct.unpack_from('I', buf)[0]`, reading the first
    four bytes little-endian. -/
def unpack4 (bs : List Nat) : Nat :=
  match bs with
  | b0 :: b1 :: b2 :: b3 :: _ => b0 + 256 * b1 + 65536 * b2 + 16777216 * b3
  | _ => 0

lemma unpack4_pack4 (n : Nat) (rest : List Nat) (h : n < 4294967296) :
    unpack4 (pack4 n ++ rest) = n := by
  simp only [pack4, List.cons_append, List.nil_append, unpack4]
  omega

/-- Source lines 122-124: `length_prefix_proto`, the 4-byte length prefix
    followed by the serialized record. -/
def length_prefix_proto {τ : Type} (encτ : τ → List Nat) (proto : τ) :
    List Nat :=
  pack4 (encτ proto).length ++ encτ proto

/-- How one run of the reading loop ends: a clean end of stream (0 bytes
    where a length prefix was expected), a truncated 1-3 byte length
    prefix (reported on stderr, then a plain `return`), or an exception
    raised by `ParseFromString` on a payload that does not decode. -/
inductive StreamOutcome where
  | cleanEOF : StreamOutcome
  | truncated : StreamOutcome
  | decodeError : StreamOutcome
deriving DecidableEq

/-- Source lines 127-144, fuel-indexed: each loop iteration reads a 4-byte
    length prefix (0 bytes read is a clean end, 1-3 bytes is the truncated
    case), then reads that many payload bytes (`stream.read` returns what
    is left when fewer remain) and hands them to the record parser.  The
    fuel only bounds the iteration count; any `fuel ≥ bs.length` computes
    the same result because every iteration consumes at least 4 bytes. -/
def parseGo {σ : Type} (parse : List Nat → Option σ) :
    Nat → List Nat → List σ × StreamOutcome
  | 0, _ => ([], StreamOutcome.cleanEOF)
  | fuel + 1, bs =>
    if bs = [] then ([], StreamOutcome.cleanEOF)
    else if bs.length < 4 then ([], StreamOutcome.truncated)
    else
      match parse ((bs.drop 4).take (unpack4 bs)) with
      | none => ([], StreamOutcome.decodeError)
      | some s =>
        let r := parseGo parse fuel (bs.drop (4 + unpack4 bs))
        (s :: r.1, r.2)

/-- Source `parse_proto_stream`: the lazy record sequence, with the
    records it yields and the way it stops. -/
def parse_proto_stream {σ : Type} (parse : List Nat → Option σ)
    (bs : List Nat) : List σ × StreamOutcome :=
  parseGo parse bs.length bs

lemma parseGo_congr {σ : Type} (parse : List Nat → Option σ) :
    ∀ fuel1 fuel2 bs, bs.length ≤ fuel1 → bs.length ≤ fuel2 →
      parseGo parse fuel1 bs = parseGo parse fuel2 bs := by
  intro fuel1
  induction fuel1 with
  | zero =>
    intro fuel2 bs h1 h2
    have hb : bs = [] := List.eq_nil_of_length_eq_zero (Nat.le_zero.mp h1)
    subst hb
    cases fuel2 <;> simp [parseGo]
  | succ f ih =>
    intro fuel2 bs h1 h2
    cases fuel2 with
    | zero =>
      have hb : bs = [] := List.eq_nil_of_length_eq_zero (Nat.le_zero.mp h2)
      subst hb
      simp [parseGo]
    | succ f2 =>
      by_cases hnil : bs = []
      · subst hnil
        simp [parseGo]
      · by_cases hlen : bs.length < 4
        · simp [parseGo, hnil, hlen]
        · simp only [parseGo, if_neg hnil, if_neg hlen]
          cases hp : parse ((bs.drop 4).take (unpack4 bs)) with
          | none => rfl
          | some s =>
            have hd1 : (bs.drop (4 + unpack4 bs)).length ≤ f := by
              rw [List.length_drop]
              omega
            have hd2 : (bs.drop (4 + unpack4 bs)).length ≤ f2 := by
              rw [List.length_drop]
              omega
            rw [ih f2 (bs.drop (4 + unpack4 bs)) hd1 hd2]

/-- One-step unfolding of the reading loop. -/
lemma parse_proto_stream_step {σ : Type} (parse : List Nat → Option σ)
    (bs : List Nat) :
    parse_proto_stream parse bs =
      if bs = [] then ([], StreamOutcome.cleanEOF)
      else if bs.length < 4 then ([], StreamOutcome.truncated)
      else
        match parse ((bs.drop 4).take (unpack4 bs)) with
        | none => ([], StreamOutcome.decodeError)
        | some s =>
          let r := parse_proto_stream parse (bs.drop (4 + unpack4 bs))
          (s :: r.1, r.2) := by
  unfold parse_proto_stream
  cases bs with
  | nil => simp [parseGo]
  | cons b l =>
    have key : parseGo parse l.length ((b :: l).drop (4 + unpack4 (b :: l))) =
        parseGo parse ((b :: l).drop (4 + unpack4 (b :: l))).length
          ((b :: l).drop (4 + unpack4 (b :: l))) := by
      apply parseGo_congr
      · rw [List.length_drop]
        simp only [List.length_cons]
        omega
      · exact le_refl _
    show parseGo parse (l.length + 1) (b :: l) = _
    simp only [parseGo, key]

/-- C5: reading 0 bytes where a length prefix was expected terminates the
    sequence as a clean end of stream; reading a 1-3 byte truncated prefix
    reports the corrupt stream and terminates without raising; in both
    cases no record is yielded. -/
theorem C5_prefix_read_termination {σ : Type} (parse : List Nat → Option σ) :
    parse_proto_stream parse [] = ([], StreamOutcome.cleanEOF) ∧
    (∀ bs : List Nat, bs ≠ [] → bs.length < 4 →
      parse_proto_stream parse bs = ([], StreamOutcome.truncated)) := by
  constructor
  · rfl
  · intro bs hne hlt
    rw [parse_proto_stream_step, if_neg hne, if_pos hlt]

/-- C5 witness: the empty stream and a 2-byte stream. -/
theorem C5_witness :
    parse_proto_stream (parseStory decodeString) ([] : List Nat) =
      (([] : List (Story String)), StreamOutcome.cleanEOF) ∧
    parse_proto_stream (parseStory decodeString) [200, 1] =
      (([] : List (Story String)), StreamOutcome.truncated) := by
  exact ⟨(C5_prefix_read_termination (parseStory decodeString)).1,
    (C5_prefix_read_termination (parseStory decodeString)).2 [200, 1]
      (by decide) (by decide)⟩

/-- Reading one well-formed length-prefixed record from the front of the
    stream yields it and continues on the remainder. -/
lemma parse_stream_record {σ : Type} (parse : List Nat → Option σ)
    (payload rest : List Nat) (s : σ)
    (hlen : payload.length < 4294967296)
    (hp : parse payload = some s) :
    parse_proto_stream parse (pack4 payload.length ++ (payload ++ rest)) =
      (s :: (parse_proto_stream parse rest).1,
        (parse_proto_stream parse rest).2) := by
  rw [parse_proto_stream_step]
  have hne : pack4 payload.length ++ (payload ++ rest) ≠ [] := by
    simp [pack4]
  have hlen4 : ¬(pack4 payload.length ++ (payload ++ rest)).length < 4 := by
    simp [pack4]
  rw [if_neg hne, if_neg hlen4]
  have hd4 : (pack4 payload.length ++ (payload ++ rest)).drop 4 =
      payload ++ rest := by
    simp [pack4]
  have hu : unpack4 (pack4 payload.length ++ (payload ++ rest)) =
      payload.length := unpack4_pack4 _ _ hlen
  rw [hd4, hu, List.take_left, hp]
  have hdrop : (pack4 payload.length ++ (payload ++ rest)).drop
      (4 + payload.length) = rest := by
    have hassoc : pack4 payload.length ++ (payload ++ rest) =
        (pack4 payload.length ++ payload) ++ rest :=
      (List.append_assoc _ _ _).symm
    have hplen : (pack4 payload.length ++ payload).length =
        4 + payload.length := by
      simp [pack4]
      omega
    rw [hassoc, ← hplen, List.drop_left]
  rw [hdrop]

/-- C7: encoding any ordered sequence of Stories with the length-prefixed
    encoder and reading the concatenated bytes back yields exactly the
    same Stories, field for field, in the original order, with a clean
    termination.  Generic over the leaf codec (token form and embedding
    form alike); each record payload must fit the 4-byte length prefix. -/
theorem C7_stream_roundtrip {τ : Type} (encτ : τ → List Nat)
    (decτ : List Nat → Option (τ × List Nat))
    (hτ : ∀ x rest, decτ (encτ x ++ rest) = some (x, rest))
    (stories : List (Story τ))
    (hlen : ∀ s ∈ stories, (encodeStory encτ s).length < 4294967296) :
    parse_proto_stream (parseStory decτ)
      ((stories.map (length_prefix_proto (encodeStory encτ))).flatten) =
      (stories, StreamOutcome.cleanEOF) := by
  induction stories with
  | nil => rfl
  | cons s ss ih =>
    rw [List.map_cons, List.flatten_cons]
    have hs : length_prefix_proto (encodeStory encτ) s ++
        (ss.map (length_prefix_proto (encodeStory encτ))).flatten =
        pack4 (encodeStory encτ s).length ++
          (encodeStory encτ s ++
            (ss.map (length_prefix_proto (encodeStory encτ))).flatten) := by
      simp [length_prefix_proto]
    rw [hs, parse_stream_record (parseStory decτ) _ _ s
      (hlen s (List.mem_cons_self s ss)) (parseStory_encodeStory hτ s),
      ih (fun x hx => hlen x (List.mem_cons_of_mem s hx))]

/-- Embedding-form leaf encoder: a vector is a list of rationals. -/
def encodeVec : List ℚ → List Nat := encList encodeRat

/-- Embedding-form leaf decoder. -/
def decodeVec : List Nat → Option (List ℚ × List Nat) := decList decodeRat

lemma decodeVec_encodeVec (v : List ℚ) (rest : List Nat) :
    decodeVec (encodeVec v ++ rest) = some (v, rest) :=
  decList_encList decodeRat_encodeRat v rest

/-- Token-form and embedding-form stories used as concrete codec inputs. -/
def storyA : Story String :=
  { id := "a1"
    description := "da"
    passage := ["tok"]
    questions := [{ type := QType.ONE
                    tokens := ["q"]
                    answers := [⟨["w"]⟩, ⟨["x"]⟩, ⟨["y"]⟩, ⟨["z"]⟩] }] }

/-- A second token-form story, with no questions. -/
def storyB : Story String :=
  { id := "b2", description := "db", passage := ["t2"], questions := [] }

/-- An embedding-form story. -/
def storyE : Story (List ℚ) :=
  { id := "e1"
    description := "de"
    passage := [[1, -2], [0, 1]]
    questions := [{ type := QType.MULTIPLE
                    tokens := [[1, 0]]
                    answers := [⟨[[1, 1]]⟩] }] }

/-- C7 witness: a two-record token-form stream and a one-record
    embedding-form stream both round-trip. -/
theorem C7_witness :
    ((∀ x rest, decodeString (encodeString x ++ rest) = some (x, rest)) ∧
     (∀ s ∈ [storyA, storyB],
        (encodeStory encodeString s).length < 4294967296) ∧
     (∀ s ∈ [storyE], (encodeStory encodeVec s).length < 4294967296)) ∧
    parse_proto_stream (parseStory decodeString)
      (([storyA, storyB].map
        (length_prefix_proto (encodeStory encodeString))).flatten) =
      ([storyA, storyB], StreamOutcome.cleanEOF) ∧
    parse_proto_stream (parseStory decodeVec)
      (([storyE].map (length_prefix_proto (encodeStory encodeVec))).flatten) =
      ([storyE], StreamOutcome.cleanEOF) := by
  refine ⟨⟨decodeString_encodeString, by decide, by decide⟩, ?_, ?_⟩
  · exact C7_stream_roundtrip encodeString decodeString
      decodeString_encodeString [storyA, storyB] (by decide)
  · exact C7_stream_roundtrip encodeVec decodeVec
      decodeVec_encodeVec [storyE] (by decide)

/-- A minimal token-form story whose encoding is 5 bytes. -/
def tinyStory : Story String :=
  { id := "s", description := "", passage := [], questions := [] }

/-- C6 counterexample: the length prefix announces 10 payload bytes but
    only the 5 bytes of a complete serialized record remain.  `stream.read`
    returns what is left, `ParseFromString` decodes it, and the loop then
    hits a clean end of stream: a record is yielded and the parse ends as
    `cleanEOF`, with no decodable error of any kind, where the claim
    demands a `CorruptStream` error carrying the byte offset. -/
theorem C6_counterexample :
    parse_proto_stream (parseStory decodeString)
      (pack4 10 ++ encodeStory encodeString tinyStory) =
      ([tinyStory], StreamOutcome.cleanEOF) ∧
    ((pack4 10 ++ encodeStory encodeString tinyStory).drop 4).length <
      unpack4 (pack4 10 ++ encodeStory encodeString tinyStory) := by
  constructor
  · rfl
  · decide

/-- C6 amended: when the length prefix announces `n` bytes but fewer than
    `n` remain, the reader hands all remaining bytes to the record
    decoder: a remainder that decodes as a complete record is yielded,
    followed by clean termination, and a remainder that does not decode
    surfaces as the decoder's failure; no `CorruptStream` kind or byte
    offset exists. -/
theorem C6_amended_short_payload {σ : Type} (parse : List Nat → Option σ)
    (bs : List Nat) (h4 : ¬bs.length < 4)
    (hshort : (bs.drop 4).length < unpack4 bs) :
    parse_proto_stream parse bs =
      match parse (bs.drop 4) with
      | some s => ([s], StreamOutcome.cleanEOF)
      | none => ([], StreamOutcome.decodeError) := by
  have hne : bs ≠ [] := by
    intro h
    subst h
    simp at h4
  rw [parse_proto_stream_step, if_neg hne, if_neg h4]
  have htake : (bs.drop 4).take (unpack4 bs) = bs.drop 4 :=
    List.take_of_length_le hshort.le
  rw [htake]
  cases hp : parse (bs.drop 4) with
  | none => rfl
  | some s =>
    have hdrop : bs.drop (4 + unpack4 bs) = [] := by
      apply List.drop_eq_nil_of_le
      rw [List.length_drop] at hshort
      omega
    rw [hdrop]
    rfl

/-- C6 amended witness: the stream `[7, 0, 0, 0, 0]` announces 7 payload
    bytes with only one remaining; the single byte does not decode as a
    Story, so the parse ends in the decoder's failure with no record. -/
theorem C6_amended_witness :
    (¬([7, 0, 0, 0, 0] : List Nat).length < 4 ∧
     (([7, 0, 0, 0, 0] : List Nat).drop 4).length <
       unpack4 [7, 0, 0, 0, 0]) ∧
    parse_proto_stream (parseStory decodeString) [7, 0, 0, 0, 0] =
      (([] : List (Story String)), StreamOutcome.decodeError) := by
  refine ⟨⟨by decide, by decide⟩, ?_⟩
  rw [C6_amended_short_payload (parseStory decodeString) [7, 0, 0, 0, 0]
    (by decide) (by decide)]
  rfl

end MCTest
